import Mathlib

/-!
# FestWiz — verification of the schedule/rating core

Shallow embedding of the algorithmic core of the FestWiz festival app
(`src/schedule.js`, `src/app.js`): the time model, the column-packing
layout engine, the conflict detector, the CSV schedule importer, the
merge/dedup store, and the rating-key migration.

Conventions of the embedding:
* JS numbers are `Nat` (all quantities involved are non-negative integers);
* a wall-clock time string `"HH:MM"` is represented by the record `HM`
  (hour, minute); the zero-padded rendering `hmToStr` recovers the string
  whenever the concatenated string keys of the source are needed;
* JS objects used as string-keyed maps are association lists
  `List (String × Nat)`; a missing key reads as `none`, and JS truthiness
  of a rating value (`undefined` and `0` are falsy) is `jsTruthy`;
* `Array.prototype.sort` with comparator `(a, b) => ka - kb` is a stable
  ascending sort, embedded as `List.insertionSort` by the same key (which
  is stable and produces the identical ordering);
* the unbounded `while (usedCols.has(col)) col++` loop is embedded with an
  explicit fuel that provably suffices (`firstFree`).
-/

namespace FestWiz

/-- A wall-clock time `"HH:MM"`: hour and minute fields as parsed by
`timeStr.split(':').map(Number)` in the source. -/
structure HM where
  h : Nat
  m : Nat
deriving DecidableEq, Repr

/-- Constant `DAY_START_HOUR` from `schedule.js`. -/
def DAY_START_HOUR : Nat := 9

/-- Function `minutesFromDayStart` (schedule.js): minutes since 9 AM, with hours
before 9 treated as continuing the previous night (+24h). -/
def minutesFromDayStart (t : HM) : Nat :=
  (((if t.h < DAY_START_HOUR then t.h + 24 else t.h)) - DAY_START_HOUR) * 60 + t.m

/-- Zero-padded 2-digit rendering of a number, `String(n).padStart(2, '0')`. -/
def pad2 (n : Nat) : String :=
  if n < 10 then "0" ++ toString n else toString n

/-- The `"HH:MM"` string a stored `HM` time denotes. -/
def hmToStr (t : HM) : String := pad2 t.h ++ ":" ++ pad2 t.m

/-- A show/Event record, with the fields the verified components read.
`start_time`/`end_time` are stored times; `entity_id` is the optional
catalog id (`null`/absent ↦ `none`). -/
structure Show where
  artist_name : String
  venue : String
  day : String
  start_time : HM
  end_time : Option HM := none
  source : String := "user"
  showcase : String := ""
  notes : String := ""
  entity_id : Option Nat := none
deriving DecidableEq, Repr

/-- Start offset of a show, `minutesFromDayStart(show.start_time)`. -/
def startMin (s : Show) : Nat := minutesFromDayStart s.start_time

/-- End offset of a show: `show.end_time ? minutesFromDayStart(show.end_time)
: startMin + 45` (the 45-minute default of layout/conflict). -/
def endMin (s : Show) : Nat :=
  match s.end_time with
  | some e => minutesFromDayStart e
  | none => startMin s + 45

/-- The strict interval-overlap test `startA < endB && endA > startB`. -/
def overlaps (a b : Show) : Prop :=
  startMin a < endMin b ∧ endMin a > startMin b

instance (a b : Show) : Decidable (overlaps a b) := by
  unfold overlaps; infer_instance

theorem overlaps_symm {a b : Show} (h : overlaps a b) : overlaps b a :=
  ⟨h.2, h.1⟩

/-! ## Column-packing layout engine (`layoutColumns`, schedule.js) -/

/-- One entry of the active list: `{ endMin, col }`. -/
structure Active where
  endMin : Nat
  col : Nat
deriving DecidableEq, Repr

/-- Fuel-driven embedding of `let col = 0; while (usedCols.has(col)) col++`. -/
def firstFreeAux : Nat → Nat → List Nat → Nat
  | 0, c, _ => c
  | fuel + 1, c, used => if c ∈ used then firstFreeAux fuel (c + 1) used else c

/-- The smallest non-negative column not in `used`.  The fuel
`max used + 2` provably suffices, so this equals the source's unbounded
`while` loop. -/
def firstFree (used : List Nat) : Nat :=
  firstFreeAux (used.foldr max 0 + 2) 0 used

/-- First pass of `layoutColumns`: scan shows in sorted order, drop
finished active entries, assign the smallest free column, record
`{ endMin, col }`.  Returns the `(show, col)` pairs in scan order. -/
def pass1 : List Show → List Active → List (Show × Nat)
  | [], _ => []
  | s :: rest, active =>
    let still := active.filter (fun a => startMin s < a.endMin)
    let col := firstFree (still.map Active.col)
    (s, col) :: pass1 rest (still ++ [⟨endMin s, col⟩])

/-- One row of the layout result: `{ show, col, totalCols }`. -/
structure LayoutEntry where
  «show» : Show
  col : Nat
  totalCols : Nat
deriving DecidableEq, Repr

/-- Sort key order for `[...shows].sort((a, b) => startMin a - startMin b)`:
a stable ascending sort by `startMin`. -/
def byStart (a b : Show) : Prop := startMin a ≤ startMin b

instance : DecidableRel byStart := fun a b => by unfold byStart; infer_instance

/-- Function `layoutColumns` (schedule.js): stable sort by start offset, first-fit
column assignment, then a second pass recomputing `totalCols` as one plus
the maximum column among all overlapping entries (starting from the
entry's own column). -/
def layoutColumns (shows : List Show) : List LayoutEntry :=
  let sorted := shows.insertionSort byStart
  let result := pass1 sorted []
  result.map (fun p =>
    { «show» := p.1, col := p.2,
      totalCols :=
        (result.foldl (fun acc q =>
          if startMin p.1 < endMin q.1 ∧ endMin p.1 > startMin q.1
          then max acc q.2 else acc) p.2) + 1 })

/-! ### Correctness of the column assignment -/

theorem mem_le_foldr_max {x : Nat} : ∀ {l : List Nat}, x ∈ l → x ≤ l.foldr max 0 := by
  intro l
  induction l with
  | nil => intro h; cases h
  | cons a t ih =>
    intro h
    rcases List.mem_cons.mp h with h | h
    · subst h; exact Nat.le_max_left _ _
    · exact Nat.le_trans (ih h) (Nat.le_max_right _ _)

theorem firstFreeAux_not_mem :
    ∀ (fuel c : Nat) (used : List Nat),
      used.foldr max 0 + 2 ≤ fuel + c → firstFreeAux fuel c used ∉ used := by
  intro fuel
  induction fuel with
  | zero =>
    intro c used h hmem
    simp only [firstFreeAux] at hmem
    have := mem_le_foldr_max hmem
    omega
  | succ n ih =>
    intro c used h
    simp only [firstFreeAux]
    split
    · exact ih (c + 1) used (by omega)
    · assumption

/-- The column the `while` loop picks is never among the used columns. -/
theorem firstFree_not_mem (used : List Nat) : firstFree used ∉ used :=
  firstFreeAux_not_mem _ 0 used (by omega)

/-- The first pass emits exactly the input shows, in order. -/
theorem pass1_map_fst : ∀ (l : List Show) (active : List Active),
    (pass1 l active).map Prod.fst = l := by
  intro l
  induction l with
  | nil => intro active; simp [pass1]
  | cons s rest ih => intro active; simp [pass1, ih]

/-- Separation against the incoming active list: any output pair whose
column equals that of an entry already active has its start at or after
that entry's end. -/
theorem pass1_active_sep : ∀ (l : List Show) (active : List Active),
    List.Pairwise byStart l →
    ∀ p ∈ pass1 l active, ∀ a ∈ active, a.col = p.2 → a.endMin ≤ startMin p.1 := by
  intro l
  induction l with
  | nil => intro active _ p hp; simp [pass1] at hp
  | cons s rest ih =>
    intro active hsort p hp a ha hcol
    rw [List.pairwise_cons] at hsort
    simp only [pass1, List.mem_cons] at hp
    rcases hp with hp | hp
    · subst hp
      by_contra hlt
      push_neg at hlt
      have hstill : a ∈ active.filter (fun a => startMin s < a.endMin) :=
        List.mem_filter.mpr ⟨ha, by simpa using hlt⟩
      have hmem : a.col ∈ (active.filter (fun a => startMin s < a.endMin)).map Active.col :=
        List.mem_map_of_mem _ hstill
      rw [hcol] at hmem
      exact firstFree_not_mem _ hmem
    · by_cases hend : startMin s < a.endMin
      · have hstill : a ∈ active.filter (fun a => startMin s < a.endMin) :=
          List.mem_filter.mpr ⟨ha, by simpa using hend⟩
        exact ih _ hsort.2 p hp a (List.mem_append_left _ hstill) hcol
      · push_neg at hend
        have hmem : p.1 ∈ rest := by
          have h1 : p.1 ∈ (pass1 rest _).map Prod.fst := List.mem_map_of_mem _ hp
          rwa [pass1_map_fst] at h1
        exact Nat.le_trans hend (hsort.1 p.1 hmem)

/-- Output pairs sharing a column are temporally separated (earlier one
ends no later than the later one starts). -/
theorem pass1_pairwise : ∀ (l : List Show) (active : List Active),
    List.Pairwise byStart l →
    List.Pairwise (fun p q : Show × Nat => p.2 = q.2 → endMin p.1 ≤ startMin q.1)
      (pass1 l active) := by
  intro l
  induction l with
  | nil => intro active _; simp [pass1]
  | cons s rest ih =>
    intro active hsort
    rw [List.pairwise_cons] at hsort
    simp only [pass1]
    refine List.Pairwise.cons ?_ (ih _ hsort.2)
    intro q hq hcol
    have ha : (⟨endMin s, firstFree ((active.filter
        (fun a => startMin s < a.endMin)).map Active.col)⟩ : Active) ∈
        (active.filter (fun a => startMin s < a.endMin)) ++
        [⟨endMin s, firstFree ((active.filter (fun a => startMin s < a.endMin)).map Active.col)⟩] := by
      simp
    exact pass1_active_sep rest _ hsort.2 q hq _ ha hcol

instance : IsTotal Show byStart := ⟨fun _ _ => Nat.le_total _ _⟩

instance : IsTrans Show byStart := ⟨fun _ _ _ h1 h2 => Nat.le_trans h1 h2⟩

theorem sorted_byStart (shows : List Show) :
    List.Pairwise byStart (shows.insertionSort byStart) :=
  List.sorted_insertionSort byStart shows

/-- Sample shows used by concrete layout examples: offset ranges
`[0,60)`, `[30,90)`, `[45,75)` relative to the 9 AM day start. -/
def shA : Show := { artist_name := "A", venue := "V", day := "2026-03-12",
                    start_time := ⟨9, 0⟩, end_time := some ⟨10, 0⟩ }

def shB : Show := { artist_name := "B", venue := "V", day := "2026-03-12",
                    start_time := ⟨9, 30⟩, end_time := some ⟨10, 30⟩ }

def shC : Show := { artist_name := "C", venue := "V", day := "2026-03-12",
                    start_time := ⟨9, 45⟩, end_time := some ⟨10, 15⟩ }

/-- C2: `layoutColumns` never assigns the same column to two entries whose
offset ranges overlap under the strict test `startA < endB && endA > startB`
(with a missing end time defaulting to start + 45 minutes). -/
theorem claim_c2_no_overlap_shares_column (shows : List Show) (i j : Nat)
    (hi : i < (layoutColumns shows).length) (hj : j < (layoutColumns shows).length)
    (hij : i ≠ j)
    (hov : overlaps ((layoutColumns shows).get ⟨i, hi⟩).«show»
                    ((layoutColumns shows).get ⟨j, hj⟩).«show») :
    ((layoutColumns shows).get ⟨i, hi⟩).col ≠ ((layoutColumns shows).get ⟨j, hj⟩).col := by
  have key : ∀ (i' j' : Fin (pass1 (shows.insertionSort byStart) []).length), i' < j' →
      ((pass1 (shows.insertionSort byStart) []).get i').2 =
        ((pass1 (shows.insertionSort byStart) []).get j').2 →
      endMin ((pass1 (shows.insertionSort byStart) []).get i').1 ≤
        startMin ((pass1 (shows.insertionSort byStart) []).get j').1 := by
    have hp := pass1_pairwise (shows.insertionSort byStart) [] (sorted_byStart shows)
    rw [List.pairwise_iff_get] at hp
    exact hp
  have hi' : i < (pass1 (shows.insertionSort byStart) []).length := by
    simpa [layoutColumns] using hi
  have hj' : j < (pass1 (shows.insertionSort byStart) []).length := by
    simpa [layoutColumns] using hj
  simp only [layoutColumns, List.get_eq_getElem, List.getElem_map] at hov ⊢
  rcases hov with ⟨hov1, hov2⟩
  rcases Nat.lt_or_ge i j with hlt | hge
  · intro heq
    have := key ⟨i, hi'⟩ ⟨j, hj'⟩ hlt (by simpa using heq)
    simp only [List.get_eq_getElem] at this
    omega
  · have hlt : j < i := Nat.lt_of_le_of_ne hge (fun h => hij h.symm)
    intro heq
    have := key ⟨j, hj'⟩ ⟨i, hi'⟩ hlt (by simpa using heq.symm)
    simp only [List.get_eq_getElem] at this
    omega

/-- Witness for C2 at a concrete input: two overlapping shows receive
distinct columns. -/
theorem claim_c2_witness :
    (0 : Nat) ≠ 1 ∧
    overlaps ((layoutColumns [shA, shB]).get ⟨0, by decide⟩).«show»
             ((layoutColumns [shA, shB]).get ⟨1, by decide⟩).«show» ∧
    ((layoutColumns [shA, shB]).get ⟨0, by decide⟩).col ≠
      ((layoutColumns [shA, shB]).get ⟨1, by decide⟩).col :=
  ⟨by decide, by decide,
    claim_c2_no_overlap_shares_column [shA, shB] 0 1 (by decide) (by decide)
      (by decide) (by decide)⟩

/-- C5: `totalCols` of each layout entry is one plus the maximum column
among all entries whose time range overlaps it (the maximum starting from
the entry's own column), and the concrete `[0,60) [30,90) [45,75)` input
receives columns `0, 1, 2` with every entry reporting `totalCols = 3`. -/
theorem claim_c5_totalCols_spec :
    (∀ (shows : List Show) (i : Nat) (hi : i < (layoutColumns shows).length),
      ((layoutColumns shows).get ⟨i, hi⟩).totalCols =
        ((layoutColumns shows).foldl (fun acc e =>
          if startMin ((layoutColumns shows).get ⟨i, hi⟩).«show» < endMin e.«show» ∧
             endMin ((layoutColumns shows).get ⟨i, hi⟩).«show» > startMin e.«show»
          then max acc e.col else acc) ((layoutColumns shows).get ⟨i, hi⟩).col) + 1) ∧
    layoutColumns [shA, shB, shC] =
      [⟨shA, 0, 3⟩, ⟨shB, 1, 3⟩, ⟨shC, 2, 3⟩] := by
  constructor
  · intro shows i hi
    simp only [layoutColumns, List.get_eq_getElem, List.getElem_map, List.foldl_map]
  · decide

/-- Witness for C5: the general `totalCols` formula evaluated at a
concrete input. -/
theorem claim_c5_witness :
    (0 : Nat) < (layoutColumns [shA, shB, shC]).length ∧
    ((layoutColumns [shA, shB, shC]).get ⟨0, by decide⟩).totalCols =
      ((layoutColumns [shA, shB, shC]).foldl (fun acc e =>
        if startMin ((layoutColumns [shA, shB, shC]).get ⟨0, by decide⟩).«show» < endMin e.«show» ∧
           endMin ((layoutColumns [shA, shB, shC]).get ⟨0, by decide⟩).«show» > startMin e.«show»
        then max acc e.col else acc)
        ((layoutColumns [shA, shB, shC]).get ⟨0, by decide⟩).col) + 1 :=
  ⟨by decide, claim_c5_totalCols_spec.1 [shA, shB, shC] 0 (by decide)⟩

/-- C4: `minutesFromDayStart` computes `(H+24-9)*60+M` for hours before the
9 AM day start and `(H-9)*60+M` otherwise; consequently any valid wall-clock
time with hour below 9 has a strictly larger offset than any valid time with
hour 9–23, and in particular `00:30` lies strictly after `23:45`. -/
theorem claim_c4_offset_formula :
    (∀ t : HM, minutesFromDayStart t =
      if t.h < 9 then (t.h + 24 - 9) * 60 + t.m else (t.h - 9) * 60 + t.m) ∧
    (∀ t1 t2 : HM, t1.h < 9 → 9 ≤ t2.h → t2.h ≤ 23 → t2.m ≤ 59 →
      minutesFromDayStart t2 < minutesFromDayStart t1) ∧
    minutesFromDayStart ⟨23, 45⟩ < minutesFromDayStart ⟨0, 30⟩ := by
  refine ⟨?_, ?_, by decide⟩
  · intro t
    unfold minutesFromDayStart DAY_START_HOUR
    split <;> omega
  · intro t1 t2 h1 h2a h2b h2m
    unfold minutesFromDayStart DAY_START_HOUR
    split <;> omega

/-- Witness for C4: the strict-ordering part applied at `00:30` vs `23:45`. -/
theorem claim_c4_witness :
    (HM.mk 0 30).h < 9 ∧ 9 ≤ (HM.mk 23 45).h ∧ (HM.mk 23 45).h ≤ 23 ∧
    (HM.mk 23 45).m ≤ 59 ∧
    minutesFromDayStart ⟨23, 45⟩ < minutesFromDayStart ⟨0, 30⟩ :=
  ⟨by decide, by decide, by decide, by decide,
    claim_c4_offset_formula.2.1 ⟨0, 30⟩ ⟨23, 45⟩ (by decide) (by decide)
      (by decide) (by decide)⟩

/-! ## Schedule importer (`parseScheduleCsv`, schedule.js)

The importer is embedded character-by-character.  Fields and cells are
`List Char`; `String.mk` packs them back into the event record.  ASCII
whitespace stands in for the full JS whitespace classes. -/

/-- ASCII whitespace as trimmed by `.trim()` / matched by `\s`. -/
def isWS (c : Char) : Bool := c = ' ' ∨ c = '\t' ∨ c = '\r' ∨ c = '\n'

/-- JS `.trim()`: drop leading and trailing whitespace. -/
def trimCh (cs : List Char) : List Char :=
  ((cs.dropWhile isWS).reverse.dropWhile isWS).reverse

/-- JS `toLowerCase` on one ASCII character. -/
def lowerCh (c : Char) : Char :=
  if 'A' ≤ c ∧ c ≤ 'Z' then Char.ofNat (c.toNat + 32) else c

/-- Digit class `\d`. -/
def isDigitCh (c : Char) : Bool := '0' ≤ c ∧ c ≤ '9'

/-- JS `parseInt` on a non-empty digit string. -/
def digitsToNat (ds : List Char) : Nat :=
  ds.foldl (fun n c => n * 10 + (c.toNat - 48)) 0

/-- The row split `csvText.split(/\r?\n/)`: split at each newline, folding an
immediately preceding CR into the separator. -/
def splitNl : List Char → List (List Char)
  | [] => [[]]
  | '\r' :: '\n' :: rest => [] :: splitNl rest
  | '\n' :: rest => [] :: splitNl rest
  | c :: rest =>
    match splitNl rest with
    | [] => [[c]]
    | r :: rs => (c :: r) :: rs

/-- The char-by-char field splitter: `"` toggles quote mode, an unquoted
`,` ends a field, and every field is trimmed.  The accumulator holds the
current field reversed. -/
def splitFieldsAux : List Char → List Char → Bool → List (List Char)
  | [], current, _ => [trimCh current.reverse]
  | c :: rest, current, inQ =>
    if c = '"' then splitFieldsAux rest current (!inQ)
    else if c = ',' ∧ inQ = false then trimCh current.reverse :: splitFieldsAux rest [] inQ
    else splitFieldsAux rest (c :: current) inQ

/-- One row split into trimmed fields. -/
def splitFields (row : List Char) : List (List Char) := splitFieldsAux row [] false

/-- Header venue names: `rows[0].slice(1).map(v => v.replace(/[<>]/g, '').trim())`. -/
def headerVenues (r0 : List (List Char)) : List (List Char) :=
  (r0.drop 1).map (fun v => trimCh (v.filter (fun c => ¬(c = '<' ∨ c = '>'))))

/-- Match `/^(\d{1,2}):(\d{2})\s*(AM|PM)$/i`: a 1–2 digit hour, `:`,
exactly two minute digits, optional whitespace, then `AM`/`PM` (any case)
at the end of the label.  Returns `(hour, minutes, isPM)`. -/
def matchHourMarker (cs : List Char) : Option (Nat × Nat × Bool) :=
  let hd := cs.takeWhile isDigitCh
  let rest := cs.dropWhile isDigitCh
  if hd.length = 0 ∨ hd.length > 2 then none else
  match rest with
  | ':' :: r2 =>
    let md := r2.takeWhile isDigitCh
    let r3 := r2.dropWhile isDigitCh
    if md.length ≠ 2 then none else
    match r3.dropWhile isWS with
    | [a, b] =>
      if (lowerCh a = 'a' ∨ lowerCh a = 'p') ∧ lowerCh b = 'm' then
        some (digitsToNat hd, digitsToNat md, lowerCh a = 'p')
      else none
    | _ => none
  | _ => none

/-- Match `/^(day\s*\d|<|>)/i`: a day label or navigation hint. -/
def isSkipLabel (cs : List Char) : Bool :=
  match cs with
  | '<' :: _ => true
  | '>' :: _ => true
  | d :: a :: y :: rest =>
    decide (lowerCh d = 'd' ∧ lowerCh a = 'a' ∧ lowerCh y = 'y') &&
      (match rest.dropWhile isWS with
       | c :: _ => isDigitCh c
       | [] => false)
  | _ => false

/-- Is `pat` a leading run of `l`? (`List.isPrefixOf`, spelled out). -/
def leadsWith : List Char → List Char → Bool
  | [], _ => true
  | _ :: _, [] => false
  | p :: ps, c :: cs => p = c && leadsWith ps cs

/-- JS `String.prototype.includes`: does `pat` occur inside the list? -/
def containsSub (pat : List Char) : List Char → Bool
  | [] => pat.isEmpty
  | c :: rest => leadsWith pat (c :: rest) || containsSub pat rest

/-- Match `/\((\d{3,4})\)\s*$/` against a trimmed cell and perform the
`replace(...).trim()` of the artist name: returns the artist-name part
and the 3–4 digit group when the cell ends with `(NNN)`/`(NNNN)`. -/
def matchTimeOverride (cs : List Char) : Option (List Char × List Char) :=
  match cs.reverse with
  | ')' :: restR =>
    let dR := restR.takeWhile isDigitCh
    let afterR := restR.dropWhile isDigitCh
    if dR.length = 3 ∨ dR.length = 4 then
      match afterR with
      | '(' :: beforeR => some (trimCh beforeR.reverse, dR.reverse)
      | _ => none
    else none
  | _ => none

/-- Process one data cell into zero or one events: skip empty cells,
missing/empty venues, annotation cells and `no set times` markers; apply
the parenthesised time override (`HH` below 9 heuristically shifted to
PM); drop cells whose artist name is empty after stripping. -/
def emitCell (day : String) (slotTime : HM) (venue : List Char) (cell : List Char) :
    List Show :=
  if cell = [] then [] else
  if venue = [] then [] else
  if (match cell with
      | '(' :: _ => true | '<' :: _ => true | '>' :: _ => true | _ => false) then [] else
  if containsSub ("no set times".toList) (cell.map lowerCh) then [] else
  match matchTimeOverride cell with
  | some (nameCh, grp) =>
    if nameCh = [] then [] else
    let t := if grp.length = 3 then '0' :: grp else grp
    let h0 := digitsToNat (t.take 2)
    let h := if h0 < 9 then h0 + 12 else h0
    [{ artist_name := String.mk nameCh, venue := String.mk venue, day := day,
       start_time := ⟨h, digitsToNat (t.drop 2)⟩, end_time := none, source := "user" }]
  | none =>
    [{ artist_name := String.mk cell, venue := String.mk venue, day := day,
       start_time := slotTime, end_time := none, source := "user" }]

/-- Process the data cells (columns 1..N) of a row against the venue
list; cells beyond the venue columns have no venue and are skipped. -/
def emitCells (day : String) (slotTime : HM) :
    List (List Char) → List (List Char) → List Show
  | _, [] => []
  | [], _ => []
  | cell :: cs, v :: vs => emitCell day slotTime v cell ++ emitCells day slotTime cs vs

/-- Importer scan state: the current base time (as hour/minute numbers)
and the slot offset within the hour block. -/
structure PState where
  base : Option (Nat × Nat)
  slot : Nat
deriving DecidableEq, Repr

/-- Process one non-header row: skip all-empty rows; an hour-marker row
sets the base time (12-hour → 24-hour) and resets the slot offset, and
emits nothing (`continue`); an empty first field selects the second
half-hour slot; day-label/navigation labels are skipped; rows before any
base time emit nothing; otherwise the data cells are emitted at the slot
time with 24-hour wraparound. -/
def processRow (day : String) (venues : List (List Char)) (st : PState)
    (row : List (List Char)) : PState × List Show :=
  if row.all (fun c => c = []) then (st, []) else
  let timeLabel := trimCh (row.headD [])
  match matchHourMarker timeLabel with
  | some (h0, m0, isPM) =>
    let h1 := if isPM ∧ h0 ≠ 12 then h0 + 12 else h0
    let h := if ¬isPM ∧ h1 = 12 then 0 else h1
    ({ base := some (h, m0), slot := 0 }, [])
  | none =>
    let st1 := if timeLabel = [] then { st with slot := 1 } else st
    if timeLabel ≠ [] ∧ isSkipLabel timeLabel then (st1, []) else
    match st1.base with
    | none => (st1, [])
    | some (bh, bm) =>
      let total := bh * 60 + bm + st1.slot * 30
      (st1, emitCells day ⟨(total / 60) % 24, total % 60⟩ (row.drop 1) venues)

/-- Scan the data rows top to bottom, threading the state. -/
def parseRowsLoop (day : String) (venues : List (List Char)) :
    PState → List (List (List Char)) → List Show
  | _, [] => []
  | st, row :: rest =>
    let p := processRow day venues st row
    p.2 ++ parseRowsLoop day venues p.1 rest

/-- The split rows of the tabular text. -/
def rowsOf (csvText : String) : List (List (List Char)) :=
  (splitNl csvText.toList).map splitFields

/-- Function `parseScheduleCsv` (schedule.js): split the text into rows of trimmed
quote-aware fields, read venue names from the header row, then scan the
remaining rows.  The synthetic `id` field (`csv_${Date.now()}_${n}`) is
not modelled. -/
def parseScheduleCsv (csvText : String) (day : String) : List Show :=
  match rowsOf csvText with
  | [] => []
  | r0 :: rest => parseRowsLoop day (headerVenues r0) ⟨none, 0⟩ rest

/-! ### Importer theorems -/

/-- The tabular input of the spec's three-event example. -/
def exGridInput : String := "Time,Venue A,Venue B\n9:00 AM,Band X,Band Y\n,Band Z,"

/-- C1: evaluating the importer on the spec's example input.  The
hour-marker row `9:00 AM,Band X,Band Y` only sets the base time — its
data cells are discarded by the `continue` — so the parse yields a single
event (Band Z at `09:30` at Venue A) instead of the three events the spec
describes. -/
theorem claim_c1_hour_marker_cells_dropped :
    parseScheduleCsv exGridInput "2026-03-12" =
      [{ artist_name := "Band Z", venue := "Venue A", day := "2026-03-12",
         start_time := ⟨9, 30⟩, end_time := none, source := "user" }] ∧
    (parseScheduleCsv exGridInput "2026-03-12").length ≠ 3 := by
  constructor
  · decide
  · decide

/-- C6 counterexample: the importer emits events whose `source` is not
`"csv-import"` (it is `"user"`). -/
theorem claim_c6_counterexample :
    ¬ (∀ e ∈ parseScheduleCsv exGridInput "2026-03-12", e.source = "csv-import") := by
  decide

theorem emitCell_source (day : String) (t : HM) (v cell : List Char) :
    ∀ e ∈ emitCell day t v cell, e.source = "user" := by
  intro e he
  unfold emitCell at he
  repeat' split at he <;> simp_all

theorem emitCells_source (day : String) (t : HM) :
    ∀ (cells venues : List (List Char)), ∀ e ∈ emitCells day t cells venues,
      e.source = "user" := by
  intro cells
  induction cells with
  | nil => intro venues e he; cases venues <;> simp [emitCells] at he
  | cons c cs ih =>
    intro venues e he
    cases venues with
    | nil => simp [emitCells] at he
    | cons v vs =>
      simp only [emitCells, List.mem_append] at he
      rcases he with he | he
      · exact emitCell_source day t v c e he
      · exact ih vs e he

theorem processRow_source (day : String) (venues : List (List Char)) (st : PState)
    (row : List (List Char)) :
    ∀ e ∈ (processRow day venues st row).2, e.source = "user" := by
  intro e he
  simp only [processRow] at he
  split at he
  · simp at he
  split at he
  · simp at he
  split at he
  · simp at he
  split at he
  · simp at he
  · exact emitCells_source day _ _ _ e (by simpa using he)

theorem parseRowsLoop_source (day : String) (venues : List (List Char)) :
    ∀ (rows : List (List (List Char))) (st : PState),
      ∀ e ∈ parseRowsLoop day venues st rows, e.source = "user" := by
  intro rows
  induction rows with
  | nil => intro st e he; simp [parseRowsLoop] at he
  | cons row rest ih =>
    intro st e he
    simp only [parseRowsLoop, List.mem_append] at he
    rcases he with he | he
    · exact processRow_source day venues st row e he
    · exact ih _ e he

/-- C6 amended: every event the importer emits has `source = "user"`
(the string `"csv-import"` never appears in the code). -/
theorem claim_c6_source_user (csvText day : String) :
    ∀ e ∈ parseScheduleCsv csvText day, e.source = "user" := by
  intro e he
  unfold parseScheduleCsv at he
  split at he
  · simp at he
  · exact parseRowsLoop_source day _ _ _ e he

/-- Witness for C6 at a concrete input. -/
theorem claim_c6_witness :
    ({ artist_name := "Band Z", venue := "Venue A", day := "2026-03-12",
       start_time := ⟨9, 30⟩, end_time := none, source := "user" } : Show) ∈
      parseScheduleCsv exGridInput "2026-03-12" ∧
    ({ artist_name := "Band Z", venue := "Venue A", day := "2026-03-12",
       start_time := ⟨9, 30⟩, end_time := none, source := "user" } : Show).source = "user" :=
  ⟨by decide, claim_c6_source_user exGridInput "2026-03-12" _ (by decide)⟩

theorem processRow_no_hour (day : String) (venues : List (List Char)) (st : PState)
    (row : List (List Char))
    (h1 : matchHourMarker (trimCh (row.headD [])) = none) (h2 : st.base = none) :
    (processRow day venues st row).2 = [] ∧ (processRow day venues st row).1.base = none := by
  simp only [processRow, h1]
  split
  · exact ⟨rfl, h2⟩
  · simp [apply_ite PState.base, h2]

theorem parseRowsLoop_no_base (day : String) (venues : List (List Char)) :
    ∀ (rows : List (List (List Char))) (st : PState), st.base = none →
      (∀ row ∈ rows, matchHourMarker (trimCh (row.headD [])) = none) →
      parseRowsLoop day venues st rows = [] := by
  intro rows
  induction rows with
  | nil => intro st _ _; rfl
  | cons row rest ih =>
    intro st hbase hall
    have h1 := hall row (List.mem_cons_self _ _)
    have hr := processRow_no_hour day venues st row h1 hbase
    simp only [parseRowsLoop]
    rw [hr.1]
    rw [List.nil_append]
    exact ih _ hr.2 (fun r hm => hall r (List.mem_cons_of_mem _ hm))

/-- C9: the importer never fails (it is a total function of its input in
this embedding), and as long as no row after the header matches the
hour-marker pattern — i.e. no base time is ever established — it emits no
events at all: such rows are silently dropped. -/
theorem claim_c9_no_base_time_no_events (csvText day : String)
    (h : ∀ row ∈ (rowsOf csvText).drop 1, matchHourMarker (trimCh (row.headD [])) = none) :
    parseScheduleCsv csvText day = [] := by
  unfold parseScheduleCsv
  split
  · rfl
  · rename_i r0 rest heq
    apply parseRowsLoop_no_base day _ rest _ rfl
    intro row hrow
    apply h
    simp [heq, hrow]

/-- Tabular input whose data rows never establish a base time. -/
def noHourInput : String := "Time,Venue A\nhello,Band Q\n,Band R"

/-- Witness for C9 at a concrete input. -/
theorem claim_c9_witness :
    (∀ row ∈ (rowsOf noHourInput).drop 1, matchHourMarker (trimCh (row.headD [])) = none) ∧
    parseScheduleCsv noHourInput "2026-03-12" = [] :=
  ⟨by decide, claim_c9_no_base_time_no_events noHourInput "2026-03-12" (by decide)⟩

/-! ## Identity resolver and rating-key migration (app.js `loadArtists`)

A JS object used as a string-keyed map of ratings is an association list
in insertion order with unique keys; reads of absent keys give `none` and
JS truthiness (`undefined` and `0` falsy) is `jsTruthy`. -/

/-- The slug `name.toLowerCase().replace(/[^a-z0-9]/g, '_')`. -/
def slugify (s : String) : String :=
  String.mk (s.toList.map (fun c =>
    let lc := lowerCh c
    if ('a' ≤ lc ∧ lc ≤ 'z') ∨ ('0' ≤ lc ∧ lc ≤ '9') then lc else '_'))

/-- The `eid_` rating key of a catalog entity. -/
def eidKey (e : Nat) : String := "eid_" ++ toString e

/-- The legacy `name_` rating key of an artist name. -/
def nameKey (n : String) : String := "name_" ++ slugify n

/-- A catalog artist as read by `loadArtists`: `entity_id` is `none` for
unofficial artists. -/
structure Artist where
  name : String
  entity_id : Option Nat := none
deriving DecidableEq, Repr

/-- Property read `obj[k]` on a JS object. -/
def mapGet : List (String × Nat) → String → Option Nat
  | [], _ => none
  | p :: rest, k => if p.1 = k then some p.2 else mapGet rest k

/-- Property write `obj[k] = v`: update in place, or append a new key. -/
def mapSet : List (String × Nat) → String → Nat → List (String × Nat)
  | [], k, v => [(k, v)]
  | p :: rest, k, v => if p.1 = k then (k, v) :: rest else p :: mapSet rest k v

/-- Property removal `delete obj[k]`. -/
def mapDelete (r : List (String × Nat)) (k : String) : List (String × Nat) :=
  r.filter (fun p => ¬ p.1 = k)

/-- JS truthiness of `ratings[k]`. -/
def jsTruthy (o : Option Nat) : Prop := o.getD 0 ≠ 0

instance (o : Option Nat) : Decidable (jsTruthy o) := by
  unfold jsTruthy; infer_instance

/-- One artist of the migration loop in `loadArtists`: for an artist with
a catalog id, if no truthy rating sits under the `eid_` key and a truthy
rating sits under the legacy `name_` key, copy it over and delete the
`name_` entry. -/
def migrateStep (r : List (String × Nat)) (a : Artist) : List (String × Nat) :=
  match a.entity_id with
  | none => r
  | some e =>
    if ¬ jsTruthy (mapGet r (eidKey e)) ∧ jsTruthy (mapGet r (nameKey a.name)) then
      mapDelete (mapSet r (eidKey e) ((mapGet r (nameKey a.name)).getD 0)) (nameKey a.name)
    else r

/-- The whole migration pass over the artist list. -/
def migrateRatings (artists : List Artist) (r : List (String × Nat)) :
    List (String × Nat) :=
  artists.foldl migrateStep r

/-! ### Idempotence of the migration -/

theorem eidKey_ne_nameKey (e : Nat) (n : String) : eidKey e ≠ nameKey n := by
  intro h
  have hd : (eidKey e).data = (nameKey n).data := congrArg String.data h
  rw [eidKey, nameKey, String.data_append, String.data_append] at hd
  have h1 : ("eid_" : String).data = ['e', 'i', 'd', '_'] := rfl
  have h2 : ("name_" : String).data = ['n', 'a', 'm', 'e', '_'] := rfl
  rw [h1, h2] at hd
  simp at hd

theorem mapGet_set_self : ∀ (r : List (String × Nat)) (k : String) (v : Nat),
    mapGet (mapSet r k v) k = some v := by
  intro r k v
  induction r with
  | nil => simp [mapSet, mapGet]
  | cons p rest ih =>
    simp only [mapSet]
    split
    · simp [mapGet]
    · simp only [mapGet]
      split
      · simp_all
      · exact ih

theorem mapGet_set_ne : ∀ (r : List (String × Nat)) (k k' : String) (v : Nat),
    k ≠ k' → mapGet (mapSet r k v) k' = mapGet r k' := by
  intro r k k' v hne
  induction r with
  | nil => simp [mapSet, mapGet, hne]
  | cons p rest ih =>
    simp only [mapSet]
    split
    · rename_i hp
      simp only [mapGet, hp]
      split <;> simp_all
    · simp only [mapGet]
      split
      · rfl
      · exact ih

theorem mapGet_delete_self (r : List (String × Nat)) (k : String) :
    mapGet (mapDelete r k) k = none := by
  induction r with
  | nil => rfl
  | cons p rest ih =>
    simp only [mapDelete, List.filter] at *
    split
    · rename_i hp
      simp only [mapGet]
      split
      · simp_all
      · exact ih
    · exact ih

theorem mapGet_delete_ne (r : List (String × Nat)) (k k' : String) (h : k ≠ k') :
    mapGet (mapDelete r k) k' = mapGet r k' := by
  induction r with
  | nil => rfl
  | cons p rest ih =>
    simp only [mapDelete, List.filter] at *
    split
    · simp only [mapGet]
      split
      · rfl
      · exact ih
    · rename_i hp
      simp only [mapGet]
      split
      · rename_i hk'
        simp at hp
        exact absurd (hp ▸ hk' : k = k') h
      · exact ih

/-- Truthiness of an `eid_` key is never destroyed by a migration step. -/
theorem migrateStep_eid_truthy (r : List (String × Nat)) (a : Artist) (e : Nat)
    (h : jsTruthy (mapGet r (eidKey e))) :
    jsTruthy (mapGet (migrateStep r a) (eidKey e)) := by
  unfold migrateStep
  split
  · exact h
  · rename_i e' _
    split
    · rename_i hcond
      rw [mapGet_delete_ne _ _ _ (fun hh => eidKey_ne_nameKey e a.name hh.symm)]
      by_cases heq : eidKey e' = eidKey e
      · rw [← heq, mapGet_set_self]
        have := hcond.2
        unfold jsTruthy at this ⊢
        simp only [Option.getD_some]
        intro hz
        exact this (by simp [hz])
      · rw [mapGet_set_ne _ _ _ _ heq]
        exact h
    · exact h

/-- Falsiness of a `name_` key is never destroyed by a migration step. -/
theorem migrateStep_name_falsy (r : List (String × Nat)) (a : Artist) (n : String)
    (h : ¬ jsTruthy (mapGet r (nameKey n))) :
    ¬ jsTruthy (mapGet (migrateStep r a) (nameKey n)) := by
  unfold migrateStep
  split
  · exact h
  · rename_i e' _
    split
    · by_cases heq : nameKey a.name = nameKey n
      · rw [heq, mapGet_delete_self]
        simp [jsTruthy]
      · rw [mapGet_delete_ne _ _ _ heq,
          mapGet_set_ne _ _ _ _ (eidKey_ne_nameKey e' n)]
        exact h
    · exact h

/-- After the migration has visited an artist, its migration condition can
never hold again. -/
def postCond (r : List (String × Nat)) (a : Artist) : Prop :=
  ∀ e, a.entity_id = some e →
    ¬(¬ jsTruthy (mapGet r (eidKey e)) ∧ jsTruthy (mapGet r (nameKey a.name)))

theorem migrateStep_self_post (r : List (String × Nat)) (a : Artist) :
    postCond (migrateStep r a) a := by
  intro e he
  unfold migrateStep
  rw [he]
  split
  · rename_i hnone
    exact absurd hnone (by simp)
  · rename_i e' he'
    obtain rfl : e = e' := by injection he'
    split
    · rename_i hcond
      intro hcontra
      apply hcontra.1
      rw [mapGet_delete_ne _ _ _ (fun hh => eidKey_ne_nameKey e a.name hh.symm),
        mapGet_set_self]
      have := hcond.2
      unfold jsTruthy at this ⊢
      simp only [Option.getD_some]
      intro hz
      exact this (by simp [hz])
    · rename_i hcond
      exact fun hcontra => hcond hcontra

theorem migrateStep_post_mono (r : List (String × Nat)) (a b : Artist)
    (h : postCond r a) : postCond (migrateStep r b) a := by
  intro e he
  have h' := h e he
  intro hcontra
  by_cases ht : jsTruthy (mapGet r (eidKey e))
  · exact hcontra.1 (migrateStep_eid_truthy r b e ht)
  · have hn : ¬ jsTruthy (mapGet r (nameKey a.name)) := fun hn => h' ⟨ht, hn⟩
    exact migrateStep_name_falsy r b a.name hn hcontra.2

theorem migrate_post_mono (l : List Artist) :
    ∀ (r : List (String × Nat)) (a : Artist), postCond r a →
      postCond (migrateRatings l r) a := by
  induction l with
  | nil => intro r a h; exact h
  | cons b t ih =>
    intro r a h
    exact ih (migrateStep r b) a (migrateStep_post_mono r a b h)

theorem migrate_post (l : List Artist) :
    ∀ (r : List (String × Nat)), ∀ a ∈ l, postCond (migrateRatings l r) a := by
  induction l with
  | nil => intro r a ha; cases ha
  | cons b t ih =>
    intro r a ha
    rcases List.mem_cons.mp ha with rfl | ha
    · exact migrate_post_mono t (migrateStep r a) a (migrateStep_self_post r a)
    · exact ih (migrateStep r b) a ha

theorem migrateStep_noop (r : List (String × Nat)) (a : Artist)
    (h : postCond r a) : migrateStep r a = r := by
  unfold migrateStep
  split
  · rfl
  · rename_i e he
    split
    · rename_i hcond
      exact absurd hcond (h e he)
    · rfl

theorem migrate_noop (l : List Artist) :
    ∀ (r : List (String × Nat)), (∀ a ∈ l, postCond r a) → migrateRatings l r = r := by
  induction l with
  | nil => intro r _; rfl
  | cons b t ih =>
    intro r h
    have hb : migrateStep r b = r := migrateStep_noop r b (h b (List.mem_cons_self _ _))
    show migrateRatings t (migrateStep r b) = r
    rw [hb]
    exact ih r (fun a ha => h a (List.mem_cons_of_mem _ ha))

/-- C3: the rating-key migration is idempotent — a second pass over the
same artist list leaves the ratings map exactly as the first pass left
it. -/
theorem claim_c3_migration_idempotent (artists : List Artist)
    (r : List (String × Nat)) :
    migrateRatings artists (migrateRatings artists r) = migrateRatings artists r :=
  migrate_noop artists _ (migrate_post artists r)

/-! ## Merge/dedup store (`loadAll` / `setupCsvImport`, schedule.js)

Both merge sites build the natural-key set of the current collection
once, then push every incoming show whose key is not in that set. -/

/-- The natural-key string `artist_name|venue|day|start_time`. -/
def natKeyStr (s : Show) : String :=
  s.artist_name ++ "|" ++ s.venue ++ "|" ++ s.day ++ "|" ++ hmToStr s.start_time

/-- The merge step shared by `loadAll` (unofficial and user batches) and
the CSV import confirmation: `existingKeys` is computed once from the
current collection, and each incoming show absent from it is appended. -/
def mergeNewShows (existing incoming : List Show) : List Show :=
  existing ++ incoming.filter (fun s => ¬ (natKeyStr s ∈ existing.map natKeyStr))

/-- C7 counterexample: an input batch that itself contains two entries
with the same natural key makes the merged collection violate the
no-duplicate-key invariant (the key set is not re-checked within a
batch). -/
theorem claim_c7_counterexample :
    ¬ ((mergeNewShows [] [shA, shA]).map natKeyStr).Nodup := by
  decide

/-- C7 amended: the merge never adds a show whose natural key is already
present in the existing collection, so the no-duplicate-key invariant is
preserved whenever each input batch is itself duplicate-free. -/
theorem claim_c7_merge_nodup (existing incoming : List Show)
    (h1 : (existing.map natKeyStr).Nodup) (h2 : (incoming.map natKeyStr).Nodup) :
    ((mergeNewShows existing incoming).map natKeyStr).Nodup := by
  unfold mergeNewShows
  rw [List.map_append, List.nodup_append]
  refine ⟨h1, ?_, ?_⟩
  · exact List.Nodup.sublist
      (List.Sublist.map natKeyStr (List.filter_sublist incoming)) h2
  · intro k hk1 hk2
    rcases List.mem_map.mp hk2 with ⟨s, hs, rfl⟩
    rcases List.mem_filter.mp hs with ⟨_, hcond⟩
    simp only [decide_not, Bool.not_eq_true', decide_eq_false_iff_not] at hcond
    exact hcond hk1

/-- Witness for C7 with duplicate-free batches. -/
theorem claim_c7_witness :
    (([shA] : List Show).map natKeyStr).Nodup ∧
    (([shB] : List Show).map natKeyStr).Nodup ∧
    ((mergeNewShows [shA] [shB]).map natKeyStr).Nodup :=
  ⟨by decide, by decide, claim_c7_merge_nodup [shA] [shB] (by decide) (by decide)⟩

/-! ## Deleting a show (`deleteShow`, schedule.js) -/

/-- Natural-key equality, the predicate `deleteShow` filters by. -/
def natKeyEq (s t : Show) : Prop :=
  s.artist_name = t.artist_name ∧ s.venue = t.venue ∧ s.day = t.day ∧
    s.start_time = t.start_time

instance (s t : Show) : Decidable (natKeyEq s t) := by
  unfold natKeyEq; infer_instance

/-- The schedule page's mutable state touched by `deleteShow`: the merged
in-memory collection, the persisted user-show list, and the ratings map. -/
structure SchedState where
  allShows : List Show
  userShows : List Show
  ratings : List (String × Nat)
deriving DecidableEq, Repr

/-- Function `deleteShow` (schedule.js): filter both the in-memory collection and
the persisted user-show list by natural-key inequality; ratings are not
touched. -/
def deleteShow (st : SchedState) (sh : Show) : SchedState :=
  { allShows := st.allShows.filter (fun s => ¬ natKeyEq s sh),
    userShows := st.userShows.filter (fun s => ¬ natKeyEq s sh),
    ratings := st.ratings }

theorem count_filter_natKey (l : List Show) (sh s' : Show) :
    (l.filter (fun s => ¬ natKeyEq s sh)).count s' =
      if natKeyEq s' sh then 0 else l.count s' := by
  split
  · rename_i hk
    refine List.count_eq_zero.mpr ?_
    intro hmem
    rcases List.mem_filter.mp hmem with ⟨_, hcond⟩
    simp only [decide_not, Bool.not_eq_true', decide_eq_false_iff_not] at hcond
    exact hcond hk
  · rename_i hk
    exact List.count_filter (by simpa using hk)

/-- C10: `deleteShow` removes from the in-memory collection and from the
persisted user-show list exactly the entries whose natural key equals the
deleted show's, and leaves the ratings map unchanged. -/
theorem claim_c10_deleteShow_frame (st : SchedState) (sh s' : Show) :
    ((deleteShow st sh).allShows.count s' =
      if natKeyEq s' sh then 0 else st.allShows.count s') ∧
    ((deleteShow st sh).userShows.count s' =
      if natKeyEq s' sh then 0 else st.userShows.count s') ∧
    (deleteShow st sh).ratings = st.ratings :=
  ⟨count_filter_natKey st.allShows sh s',
   count_filter_natKey st.userShows sh s', rfl⟩

/-! ## Conflict detection (`renderTimeline`, schedule.js)

Conflicts are collected into a `Set` of concatenated key strings
`artist_name + venue + start_time`; a show is rendered as conflicting iff
its own concatenated key is in that set. -/

/-- JS `toLowerCase` on a string. -/
def lowerStr (s : String) : String := String.mk (s.toList.map lowerCh)

/-- Function `showRatingKey` (schedule.js): `eid_` of the show's own catalog id,
else `eid_` of the catalog id found for the lower-cased artist name in
`artistEntityIdMap`, else the `name_` slug key. -/
def showRatingKey (eidMap : List (String × Nat)) (s : Show) : String :=
  match s.entity_id with
  | some e => eidKey e
  | none =>
    match mapGet eidMap (lowerStr s.artist_name) with
    | some e => eidKey e
    | none => nameKey s.artist_name

/-- Function `getRating` (schedule.js): `ratings[showRatingKey(show)] || 0`. -/
def getRating (ratings eidMap : List (String × Nat)) (s : Show) : Nat :=
  (mapGet ratings (showRatingKey eidMap s)).getD 0

/-- The concatenated conflict key `a.artist_name + a.venue + a.start_time`
(no separators). -/
def conflictKey (s : Show) : String :=
  s.artist_name ++ s.venue ++ hmToStr s.start_time

/-- The double loop `for i ... for j = i+1 ...` over the rated shows:
for every later show overlapping the current one, both concatenated keys
are added to the conflict set. -/
def pairConflictKeys : List Show → List String
  | [] => []
  | a :: rest =>
    ((rest.filter (fun b => overlaps a b)).flatMap
      (fun b => [conflictKey a, conflictKey b])) ++ pairConflictKeys rest

/-- The conflict-key set of a day's shows: pairwise overlaps among the
shows with a positive rating. -/
def conflictingKeys (ratings eidMap : List (String × Nat)) (shows : List Show) :
    List String :=
  pairConflictKeys (shows.filter (fun s => getRating ratings eidMap s > 0))

/-- The membership test `conflicting.has(artist_name + venue + start_time)`:
how `renderTimeline` decides whether to flag a show. -/
def isConflict (ratings eidMap : List (String × Nat)) (shows : List Show)
    (s : Show) : Prop :=
  conflictKey s ∈ conflictingKeys ratings eidMap shows

instance (ratings eidMap : List (String × Nat)) (shows : List Show) (s : Show) :
    Decidable (isConflict ratings eidMap shows s) := by
  unfold isConflict; infer_instance

/-- Shows for the C8 counterexample: the concatenated keys of `cxAB`
(`"AB" + "C" + ...`) and `cxA` (`"A" + "BC" + ...`) collide. -/
def cxAB : Show := { artist_name := "AB", venue := "C", day := "d", start_time := ⟨20, 0⟩ }

def cxD : Show := { artist_name := "D", venue := "E", day := "d", start_time := ⟨20, 15⟩ }

def cxA : Show := { artist_name := "A", venue := "BC", day := "d", start_time := ⟨20, 0⟩ }

/-- Ratings for the C8 counterexample: `AB` and `D` rated, `A` unrated. -/
def cxRatings : List (String × Nat) := [("name_ab", 3), ("name_d", 2)]

/-- C8 counterexample: an unrated show is flagged as conflicting, because
its concatenated key `artist+venue+start` collides with the key of a
rated show of an overlapping pair. -/
theorem claim_c8_counterexample :
    getRating cxRatings [] cxA = 0 ∧ isConflict cxRatings [] [cxAB, cxD, cxA] cxA := by
  constructor
  · decide
  · decide

theorem pairKeys_mem_of : ∀ (l1 : List Show) (x : Show) (l2 : List Show) (y : Show),
    y ∈ l2 → overlaps x y →
    conflictKey x ∈ pairConflictKeys (l1 ++ x :: l2) ∧
      conflictKey y ∈ pairConflictKeys (l1 ++ x :: l2) := by
  intro l1
  induction l1 with
  | nil =>
    intro x l2 y hy hov
    have hyf : y ∈ l2.filter (fun b => overlaps x b) :=
      List.mem_filter.mpr ⟨hy, by simpa using hov⟩
    constructor
    · refine List.mem_append_left _ (List.mem_flatMap.mpr ⟨y, hyf, ?_⟩)
      simp
    · refine List.mem_append_left _ (List.mem_flatMap.mpr ⟨y, hyf, ?_⟩)
      simp
  | cons c l1' ih =>
    intro x l2 y hy hov
    have h := ih x l2 y hy hov
    constructor
    · exact List.mem_append_right _ h.1
    · exact List.mem_append_right _ h.2

theorem mem_pairKeys_imp {k : String} : ∀ {l : List Show}, k ∈ pairConflictKeys l →
    ∃ a b, [a, b].Sublist l ∧ overlaps a b ∧
      (k = conflictKey a ∨ k = conflictKey b) := by
  intro l
  induction l with
  | nil => intro h; simp [pairConflictKeys] at h
  | cons a rest ih =>
    intro h
    rcases List.mem_append.mp h with h | h
    · rcases List.mem_flatMap.mp h with ⟨b, hbf, hk⟩
      rcases List.mem_filter.mp hbf with ⟨hbmem, hbov⟩
      refine ⟨a, b, List.Sublist.cons₂ a (List.singleton_sublist.mpr hbmem), ?_, ?_⟩
      · simpa using hbov
      · simpa using hk
    · rcases ih h with ⟨a', b', hsub, hov, hk⟩
      exact ⟨a', b', hsub.cons a, hov, hk⟩

/-- C8 amended: when no two entries of the day's show list share the
concatenated string `artist_name + venue + start_time`, a show is flagged
as conflicting iff it has a positive rating and its offset range overlaps
that of some other positively-rated show; in particular no unrated show
is flagged.  (Without that injectivity the flag leaks across key
collisions — see the counterexample.) -/
theorem claim_c8_flag_iff (ratings eidMap : List (String × Nat)) (shows : List Show)
    (hinj : (shows.map conflictKey).Nodup) (s : Show) (hs : s ∈ shows) :
    isConflict ratings eidMap shows s ↔
      (getRating ratings eidMap s > 0 ∧
        ∃ t ∈ shows, t ≠ s ∧ getRating ratings eidMap t > 0 ∧ overlaps s t) := by
  have hnodup_shows : shows.Nodup := hinj.of_map
  have hkeyinj := List.inj_on_of_nodup_map hinj
  have hratedsub : (shows.filter (fun x => getRating ratings eidMap x > 0)).Sublist shows :=
    List.filter_sublist shows
  have hratednodup : (shows.filter (fun x => getRating ratings eidMap x > 0)).Nodup :=
    List.Nodup.sublist hratedsub hnodup_shows
  constructor
  · intro h
    rcases mem_pairKeys_imp h with ⟨a, b, hsub, hov, hk⟩
    have hamem : a ∈ shows.filter (fun x => getRating ratings eidMap x > 0) :=
      hsub.subset (by simp)
    have hbmem : b ∈ shows.filter (fun x => getRating ratings eidMap x > 0) :=
      hsub.subset (by simp)
    have hane : a ≠ b := by
      have hnd : ([a, b] : List Show).Nodup := List.Nodup.sublist hsub hratednodup
      simp only [List.nodup_cons, List.mem_singleton] at hnd
      exact hnd.1
    rcases List.mem_filter.mp hamem with ⟨hashow, hara⟩
    rcases List.mem_filter.mp hbmem with ⟨hbshow, hbra⟩
    rcases hk with hk | hk
    · obtain rfl : s = a := hkeyinj hs hashow hk
      exact ⟨by simpa using hara, b, hbshow, fun hb => hane hb.symm, by simpa using hbra, hov⟩
    · obtain rfl : s = b := hkeyinj hs hbshow hk
      exact ⟨by simpa using hbra, a, hashow, hane, by simpa using hara,
        overlaps_symm hov⟩
  · rintro ⟨hrs, t, htshow, htne, hrt, hov⟩
    have hsr : s ∈ shows.filter (fun x => getRating ratings eidMap x > 0) :=
      List.mem_filter.mpr ⟨hs, by simpa using hrs⟩
    have htr : t ∈ shows.filter (fun x => getRating ratings eidMap x > 0) :=
      List.mem_filter.mpr ⟨htshow, by simpa using hrt⟩
    rcases List.append_of_mem hsr with ⟨r1, r2, hsplit⟩
    have htsplit : t ∈ r1 ++ s :: r2 := hsplit ▸ htr
    unfold isConflict conflictingKeys
    rcases List.mem_append.mp htsplit with ht1 | ht2
    · rcases List.append_of_mem ht1 with ⟨q1, q2, hq⟩
      have hrew : r1 ++ s :: r2 = q1 ++ t :: (q2 ++ s :: r2) := by
        rw [hq]; simp
      have hsmem : s ∈ q2 ++ s :: r2 := by simp
      have := (pairKeys_mem_of q1 t (q2 ++ s :: r2) s hsmem (overlaps_symm hov)).2
      rw [hsplit, hrew]
      exact this
    · rcases List.mem_cons.mp ht2 with hteq | ht2
      · exact absurd hteq htne
      · have := (pairKeys_mem_of r1 s r2 t ht2 hov).1
        rw [hsplit]
        exact this

/-- Witness for C8 at a collision-free concrete input. -/
theorem claim_c8_witness :
    (([cxAB, cxD] : List Show).map conflictKey).Nodup ∧
    cxAB ∈ ([cxAB, cxD] : List Show) ∧
    (isConflict cxRatings [] [cxAB, cxD] cxAB ↔
      (getRating cxRatings [] cxAB > 0 ∧
        ∃ t ∈ ([cxAB, cxD] : List Show), t ≠ cxAB ∧
          getRating cxRatings [] t > 0 ∧ overlaps cxAB t)) :=
  ⟨by decide, by decide,
    claim_c8_flag_iff cxRatings [] [cxAB, cxD] (by decide) cxAB (by decide)⟩

end FestWiz
